import Mathlib

/-!
Verification of the `calendar_wallpaper` repository against its specification.

The Python sources are shallowly embedded:
* Python `int` arithmetic becomes `Int`/`Nat` (Python `//` and `%` on ints are
  floor division and floor modulus, which for the positive divisors used here
  coincide with Lean's `/` and `%` on `Int`).
* Python `float` quantities produced by true division (`/`) are modelled as
  exact rationals `ℚ`; the program only ever compares and adds them.
* Python strings are modelled as `List Char`.
* Fallible operations return `Option`/`Except`; Python `try/except` blocks
  become explicit case analysis on those values.
* PIL drawing calls are modelled as an emitted list of drawing commands, and
  font metric queries (`draw.textbbox`) as explicit width functions passed in.
-/

namespace CalendarWallpaper

/-! ## Configuration (src/config/config.py, class BaseConfig)

Only the fields the verified code paths read.  Colors are stored after the
`hex_to_rgb` conversion done in `CalendarImageGen.__init__`. -/

structure Cfg where
  IMG_WIDTH : Int := 1920
  IMG_HEIGHT : Int := 1080
  MARGIN_TOP : Int := 50
  MARGIN_BOTTOM : Int := 450
  MARGIN_LEFT : Int := 500
  MARGIN_RIGHT : Int := 500
  CALENDAR_MIN_NUM_ROWS : Nat := 6
  BACKGROUND_COLOR : Int × Int × Int := (0, 0, 0)
  GRID_COLOR : Int × Int × Int := (20, 20, 20)
  TEXT_COLOR : Int × Int × Int := (255, 255, 255)
  EVENT_COLOR : Int × Int × Int := (100, 100, 100)
  TODAY_CELL_BG_COLOR : Int × Int × Int := (15, 15, 15)
  TODAY_EVENT_COLOR : Int × Int × Int := (224, 224, 224)
deriving DecidableEq

/-- `BaseConfig` defaults from src/config/config.py. -/
def baseConfig : Cfg := {}

/-! ## Proleptic Gregorian date arithmetic

These model the parts of Python's `calendar` and `datetime` modules the
program uses: `calendar.isleap`, `calendar.monthrange`,
`datetime.date.toordinal` and `datetime.date.weekday`. -/

/-- Python `calendar.isleap(y)`: `y % 4 == 0 and (y % 100 != 0 or y % 400 == 0)`. -/
def isLeap (y : Int) : Bool :=
  y % 4 == 0 && (y % 100 != 0 || y % 400 == 0)

theorem isLeap_iff (y : Int) :
    isLeap y = true ↔ (y % 4 = 0 ∧ (y % 100 ≠ 0 ∨ y % 400 = 0)) := by
  simp [isLeap]

/-- Days in a month, as in `calendar.monthrange` (the `mdays` table plus the
February leap adjustment). Months are numbered 1..12; other inputs are out of
the program's domain and return 0. -/
def daysInMonth (y : Int) (m : Nat) : Nat :=
  match m with
  | 1 => 31
  | 2 => if isLeap y then 29 else 28
  | 3 => 31
  | 4 => 30
  | 5 => 31
  | 6 => 30
  | 7 => 31
  | 8 => 31
  | 9 => 30
  | 10 => 31
  | 11 => 30
  | 12 => 31
  | _ => 0

/-- Cumulative days before month `m` in a non-leap year
(datetime's `_DAYS_BEFORE_MONTH` table). -/
def daysBeforeMonthCommon (m : Nat) : Int :=
  match m with
  | 1 => 0
  | 2 => 31
  | 3 => 59
  | 4 => 90
  | 5 => 120
  | 6 => 151
  | 7 => 181
  | 8 => 212
  | 9 => 243
  | 10 => 273
  | 11 => 304
  | 12 => 334
  | _ => 0

/-- datetime's `_days_before_month`. -/
def daysBeforeMonth (y : Int) (m : Nat) : Int :=
  daysBeforeMonthCommon m + (if 2 < m ∧ isLeap y then 1 else 0)

/-- datetime's `_days_before_year`: days before January 1st of year `y` in the
proleptic Gregorian calendar. Python restricts years to 1..9999; the formula
itself (with floor division) extends consistently to every integer year. -/
def daysBeforeYear (y : Int) : Int :=
  365 * (y - 1) + (y - 1) / 4 - (y - 1) / 100 + (y - 1) / 400

/-- `datetime.date(y, m, d).toordinal()` (datetime's `_ymd2ord`);
January 1st of year 1 is ordinal 1. -/
def toOrdinal (y : Int) (m d : Nat) : Int :=
  daysBeforeYear y + daysBeforeMonth y m + d

/-- `datetime.date(y, m, d).weekday()`: `(toordinal() + 6) % 7`, Monday = 0. -/
def pyWeekday (y : Int) (m d : Nat) : Int :=
  (toOrdinal y m d + 6) % 7

theorem daysInMonth_bounds (y : Int) (m : Nat) (h1 : 1 ≤ m) (h2 : m ≤ 12) :
    28 ≤ daysInMonth y m ∧ daysInMonth y m ≤ 31 := by
  cases h : isLeap y <;> interval_cases m <;> simp [daysInMonth, h] <;> omega

/-- Month step for the cumulative-days table: for months 1..11, the days
before month `m+1` are the days before `m` plus the length of `m`. -/
theorem daysBeforeMonth_step (y : Int) (m : Nat) (h1 : 1 ≤ m) (h2 : m ≤ 11) :
    daysBeforeMonth y (m + 1) = daysBeforeMonth y m + daysInMonth y m := by
  interval_cases m <;>
    cases h : isLeap y <;>
      simp [daysBeforeMonth, daysBeforeMonthCommon, daysInMonth, h] <;> omega

/-- Year step: a year contributes 366 days when leap, 365 otherwise. -/
theorem daysBeforeYear_step (y : Int) :
    daysBeforeYear (y + 1) = daysBeforeYear y + (if isLeap y then 366 else 365) := by
  by_cases hL : isLeap y = true
  · have h := (isLeap_iff y).mp hL
    rw [if_pos hL]
    simp only [daysBeforeYear, add_sub_cancel_right]
    rcases h with ⟨h4, h100 | h400⟩ <;> omega
  · have h : ¬ (y % 4 = 0 ∧ (y % 100 ≠ 0 ∨ y % 400 = 0)) := fun hx => hL ((isLeap_iff y).mpr hx)
    rw [if_neg hL]
    simp only [daysBeforeYear, add_sub_cancel_right]
    by_cases h4 : y % 4 = 0 <;> by_cases h100 : y % 100 = 0 <;> by_cases h400 : y % 400 = 0
    · exact absurd ⟨h4, Or.inr h400⟩ h
    · clear h hL; omega
    · exact absurd ⟨h4, Or.inr h400⟩ h
    · exact absurd ⟨h4, Or.inl h100⟩ h
    · clear h hL; omega
    · clear h hL; omega
    · clear h hL; omega
    · clear h hL; omega

/-- `toOrdinal` is affine in the day: day `d` of a month is `d - 1` days after
day 1 of the same month. -/
theorem toOrdinal_day (y : Int) (m d : Nat) :
    toOrdinal y m d = toOrdinal y m 1 + (d : Int) - 1 := by
  simp [toOrdinal]; omega

/-- The day after the last day of month `m ≤ 11` is day 1 of month `m+1`. -/
theorem toOrdinal_month_step (y : Int) (m : Nat) (h1 : 1 ≤ m) (h2 : m ≤ 11) :
    toOrdinal y (m + 1) 1 = toOrdinal y m (daysInMonth y m) + 1 := by
  simp only [toOrdinal, daysBeforeMonth_step y m h1 h2]
  omega

/-- The day after December 31st is January 1st of the next year. -/
theorem toOrdinal_year_step (y : Int) :
    toOrdinal (y + 1) 1 1 = toOrdinal y 12 31 + 1 := by
  simp only [toOrdinal, daysBeforeYear_step y, daysBeforeMonth, daysBeforeMonthCommon]
  cases h : isLeap y <;> simp [h] <;> omega

/-! ## The month grid (Python `calendar.Calendar.monthdayscalendar`)

`draw_calendar` calls `calendar.setfirstweekday(start_of_week)` and then
`calendar.monthcalendar(year, month)`; `fw` below is that first weekday
(0 = Monday, 6 = Sunday). -/

/-- Number of leading previous-month cells:
`days_before = (day1 - self.firstweekday) % 7` in `Calendar.itermonthdays`. -/
def monthLead (y : Int) (m fw : Nat) : Nat :=
  ((pyWeekday y m 1 - fw) % 7).toNat

/-- The flat cell sequence yielded by `Calendar.itermonthdays`: `days_before`
zeros, then 1..ndays, then `days_after = (firstweekday - day1 - ndays) % 7`
zeros; the latter equals `(7 - (days_before + ndays) % 7) % 7`. -/
def monthCells (y : Int) (m fw : Nat) : List Nat :=
  let lead := monthLead y m fw
  let nd := daysInMonth y m
  let after := (7 - (lead + nd) % 7) % 7
  List.replicate lead 0 ++ (List.range nd).map (· + 1) ++ List.replicate after 0

/-- `calendar.monthcalendar(year, month)`:
`[days[i:i+7] for i in range(0, len(days), 7)]`. -/
def monthcalendar (y : Int) (m fw : Nat) : List (List Nat) :=
  let days := monthCells y m fw
  (List.range ((days.length + 6) / 7)).map (fun r => (days.drop (7 * r)).take 7)

theorem monthLead_lt (y : Int) (m fw : Nat) : monthLead y m fw < 7 := by
  have h1 : 0 ≤ (pyWeekday y m 1 - fw) % 7 := Int.emod_nonneg _ (by norm_num)
  have h2 : (pyWeekday y m 1 - fw) % 7 < 7 := Int.emod_lt_of_pos _ (by norm_num)
  simp only [monthLead]
  omega

theorem monthCells_length (y : Int) (m fw : Nat) :
    (monthCells y m fw).length =
      monthLead y m fw + daysInMonth y m +
        (7 - (monthLead y m fw + daysInMonth y m) % 7) % 7 := by
  simp [monthCells]
  omega

theorem seven_dvd_monthCells_length (y : Int) (m fw : Nat) :
    7 ∣ (monthCells y m fw).length := by
  rw [monthCells_length]
  omega

theorem monthCells_getElem? (y : Int) (m fw i : Nat)
    (hi : i < (monthCells y m fw).length) :
    (monthCells y m fw)[i]? =
      some (if i < monthLead y m fw then 0
            else if i < monthLead y m fw + daysInMonth y m then
              i - monthLead y m fw + 1
            else 0) := by
  rw [monthCells_length] at hi
  by_cases h1 : i < monthLead y m fw
  · simp [monthCells, List.getElem?_append, List.getElem?_replicate, h1]
  · by_cases h2 : i < monthLead y m fw + daysInMonth y m
    · have h3 : i - monthLead y m fw < daysInMonth y m := by omega
      simp [monthCells, List.getElem?_append, List.getElem?_map,
        List.getElem?_range h3, h1, h2, h3]
    · have h3 : ¬ i - monthLead y m fw < daysInMonth y m := by omega
      have h5 : i - monthLead y m fw - daysInMonth y m <
          (7 - (monthLead y m fw + daysInMonth y m) % 7) % 7 := by omega
      simp [monthCells, List.getElem?_append, List.getElem?_replicate,
        h1, h2, h3, h5]

theorem monthcalendar_length (y : Int) (m fw : Nat) :
    (monthcalendar y m fw).length = ((monthCells y m fw).length + 6) / 7 := by
  simp [monthcalendar]

/-- Row `wi` of the grid is the `wi`-th 7-cell slice of the flat cell list. -/
theorem monthcalendar_row (y : Int) (m fw wi : Nat)
    (h : wi < (monthcalendar y m fw).length) :
    (monthcalendar y m fw).getD wi [] =
      ((monthCells y m fw).drop (7 * wi)).take 7 := by
  rw [monthcalendar_length] at h
  simp only [monthcalendar, List.getD_eq_getElem?_getD, List.getElem?_map,
    List.getElem?_range h, Option.map_some', Option.getD_some]

theorem monthcalendar_row_length (y : Int) (m fw wi : Nat)
    (h : wi < (monthcalendar y m fw).length) :
    ((monthcalendar y m fw).getD wi []).length = 7 := by
  have hdvd := seven_dvd_monthCells_length y m fw
  rw [monthcalendar_length] at h
  rw [monthcalendar_row y m fw wi (by rw [monthcalendar_length]; exact h)]
  simp only [List.length_take, List.length_drop]
  omega

/-- Entry `di` of row `wi` is flat cell `7 * wi + di`. -/
theorem monthcalendar_entry (y : Int) (m fw wi di : Nat)
    (h : wi < (monthcalendar y m fw).length) (hdi : di < 7) :
    ((monthcalendar y m fw).getD wi []).getD di 0 =
      (monthCells y m fw).getD (7 * wi + di) 0 := by
  rw [monthcalendar_row y m fw wi h]
  simp only [List.getD_eq_getElem?_getD, List.getElem?_take, hdi, if_true,
    List.getElem?_drop]

/-! ## Resolution of grid cells to calendar dates
(src/models/calendar_image_gen.py, `draw_day_boxes_and_events`, lines 240-297) -/

/-- A calendar date as (year, month, day). -/
abbrev Date3 := Int × Nat × Nat

/-- Ordinal of a date triple. -/
def dateOrd (d : Date3) : Int := toOrdinal d.1 d.2.1 d.2.2

/-- `sum(1 for d in l if d == 0)`. -/
def countZeros (l : List Nat) : Nat := l.countP (fun d => d == 0)

@[simp] theorem countZeros_nil : countZeros [] = 0 := rfl

@[simp] theorem countZeros_append (a b : List Nat) :
    countZeros (a ++ b) = countZeros a + countZeros b :=
  List.countP_append _ a b

theorem countZeros_singleton (v : Nat) :
    countZeros [v] = if v = 0 then 1 else 0 := by
  by_cases h : v = 0 <;> simp [countZeros, h]

/-- `actual_date_for_events` of cell `(wi, di)` in `draw_day_boxes_and_events`:
a nonzero entry is a day of the displayed month; a zero in the first week is a
previous-month day (`prev_month_days - leading_zeros + 1 + pos`), a zero in the
last week is a next-month day (`pos + 1`), and a zero in a middle week (which
never occurs) yields no date. -/
def resolvedDate (y : Int) (m : Nat) (grid : List (List Nat)) (wi di : Nat) :
    Option Date3 :=
  let prevMonth := if 1 < m then m - 1 else 12
  let prevYear := if 1 < m then y else y - 1
  let nextMonth := if m < 12 then m + 1 else 1
  let nextYear := if m < 12 then y else y + 1
  let prevMonthDays := daysInMonth prevYear prevMonth
  let week := grid.getD wi []
  let day := week.getD di 0
  if day ≠ 0 then some (y, m, day)
  else if wi = 0 then
    let leadingZeros := countZeros week
    let pos := countZeros (week.take di)
    some (prevYear, prevMonth, prevMonthDays - leadingZeros + 1 + pos)
  else if wi = grid.length - 1 then
    let pos := countZeros (week.take di)
    some (nextYear, nextMonth, pos + 1)
  else none

/-- The last day of the previous month is the day before the first of `(y, m)`. -/
theorem toOrdinal_prev_month (y : Int) (m : Nat) (hm1 : 1 ≤ m) (hm2 : m ≤ 12) :
    toOrdinal (if 1 < m then y else y - 1) (if 1 < m then m - 1 else 12)
        (daysInMonth (if 1 < m then y else y - 1) (if 1 < m then m - 1 else 12)) + 1 =
      toOrdinal y m 1 := by
  by_cases h : 1 < m
  · simp only [if_pos h]
    have hstep := toOrdinal_month_step y (m - 1) (by omega) (by omega)
    rw [Nat.sub_add_cancel (by omega)] at hstep
    omega
  · have hm : m = 1 := by omega
    subst hm
    simp only [if_neg h]
    have hstep := toOrdinal_year_step (y - 1)
    rw [sub_add_cancel] at hstep
    have h31 : daysInMonth (y - 1) 12 = 31 := rfl
    rw [h31]
    omega

/-- The first day of the next month is the day after the last of `(y, m)`. -/
theorem toOrdinal_next_month (y : Int) (m : Nat) (hm1 : 1 ≤ m) (hm2 : m ≤ 12) :
    toOrdinal (if m < 12 then y else y + 1) (if m < 12 then m + 1 else 1) 1 =
      toOrdinal y m (daysInMonth y m) + 1 := by
  by_cases h : m < 12
  · simp only [if_pos h]
    exact toOrdinal_month_step y m hm1 (by omega)
  · have hm : m = 12 := by omega
    subst hm
    simp only [if_neg h]
    have hstep := toOrdinal_year_step y
    have h31 : daysInMonth y 12 = 31 := rfl
    rw [h31]
    exact hstep

/-- Within the first `lead + ndays` cells, the zeros are exactly the first
`lead` cells. -/
theorem countZeros_take_first (y : Int) (m fw : Nat) (hm1 : 1 ≤ m) (hm2 : m ≤ 12) :
    ∀ k, k ≤ monthLead y m fw + daysInMonth y m →
      countZeros ((monthCells y m fw).take k) = min k (monthLead y m fw) := by
  have hnd := daysInMonth_bounds y m hm1 hm2
  have hlead := monthLead_lt y m fw
  intro k
  induction k with
  | zero => intro _; simp
  | succ n ih =>
    intro hk
    have hlen : n < (monthCells y m fw).length := by
      rw [monthCells_length]; omega
    rw [List.take_succ, monthCells_getElem? y m fw n hlen]
    rw [countZeros_append, ih (by omega)]
    by_cases h : n < monthLead y m fw
    · rw [if_pos h]
      simp only [Option.toList_some, countZeros_singleton, eq_self_iff_true, if_true]
      omega
    · rw [if_neg h, if_pos (by omega)]
      simp only [Option.toList_some, countZeros_singleton]
      rw [if_neg (by omega)]
      omega

/-- Zero count of a window that starts at or after `lead`: only the trailing
zeros (cells past `lead + ndays`) contribute. -/
theorem countZeros_drop_take (y : Int) (m fw b : Nat) (hb : monthLead y m fw ≤ b) :
    ∀ k, b + k ≤ (monthCells y m fw).length →
      countZeros (((monthCells y m fw).drop b).take k) =
        b + k - max (monthLead y m fw + daysInMonth y m) b := by
  intro k
  induction k with
  | zero => intro _; rw [List.take_zero]; simp only [countZeros_nil]; omega
  | succ n ih =>
    intro hbk
    have hlen : b + n < (monthCells y m fw).length := by omega
    rw [List.take_succ, List.getElem?_drop, monthCells_getElem? y m fw (b + n) hlen]
    rw [countZeros_append, ih (by omega)]
    by_cases h : b + n < monthLead y m fw + daysInMonth y m
    · rw [if_neg (by omega), if_pos h]
      simp only [Option.toList_some, countZeros_singleton]
      rw [if_neg (by omega)]
      omega
    · rw [if_neg (by omega), if_neg h]
      simp only [Option.toList_some, countZeros_singleton, eq_self_iff_true, if_true]
      omega

/-- A cell holding a nonzero entry resolves to that day of the displayed month. -/
theorem resolvedDate_current (y : Int) (m fw wi di : Nat)
    (hm1 : 1 ≤ m) (hm2 : m ≤ 12)
    (hwi : wi < (monthcalendar y m fw).length) (hdi : di < 7)
    (h1 : monthLead y m fw ≤ 7 * wi + di)
    (h2 : 7 * wi + di < monthLead y m fw + daysInMonth y m) :
    resolvedDate y m (monthcalendar y m fw) wi di =
      some (y, m, 7 * wi + di - monthLead y m fw + 1) := by
  have hdvd := seven_dvd_monthCells_length y m fw
  have hrows := monthcalendar_length y m fw
  have hflat : 7 * wi + di < (monthCells y m fw).length := by
    rw [hrows] at hwi; omega
  have hday : ((monthcalendar y m fw).getD wi []).getD di 0 =
      7 * wi + di - monthLead y m fw + 1 := by
    rw [monthcalendar_entry y m fw wi di hwi hdi, List.getD_eq_getElem?_getD,
      monthCells_getElem? y m fw _ hflat]
    rw [if_neg (by omega), if_pos h2]
    rfl
  simp only [resolvedDate]
  rw [hday, if_pos (by omega)]

/-- Every cell of the month grid resolves to a real calendar date, and the
flat sequence of resolved dates advances by exactly one day per cell:
cell `(wi, di)` holds the date of ordinal
`toOrdinal y m 1 - monthLead + (7 * wi + di)`. -/
theorem resolvedDate_ordinal (y : Int) (m fw wi di : Nat)
    (hm1 : 1 ≤ m) (hm2 : m ≤ 12)
    (hwi : wi < (monthcalendar y m fw).length) (hdi : di < 7) :
    ∃ dt : Date3, resolvedDate y m (monthcalendar y m fw) wi di = some dt ∧
      dateOrd dt = toOrdinal y m 1 - (monthLead y m fw : Int) +
        ((7 * wi + di : Nat) : Int) := by
  have hlead := monthLead_lt y m fw
  have hnd := daysInMonth_bounds y m hm1 hm2
  have hdvd := seven_dvd_monthCells_length y m fw
  have hlenval := monthCells_length y m fw
  have hrows := monthcalendar_length y m fw
  have hwiR : wi < ((monthCells y m fw).length + 6) / 7 := hrows ▸ hwi
  have hflat : 7 * wi + di < (monthCells y m fw).length := by omega
  have hrow := monthcalendar_row y m fw wi hwi
  rcases lt_or_le (7 * wi + di) (monthLead y m fw) with hB | hge
  · -- leading zero of the first week: a previous-month day
    have hwi0 : wi = 0 := by omega
    have hday : ((monthcalendar y m fw).getD wi []).getD di 0 = 0 := by
      rw [monthcalendar_entry y m fw wi di hwi hdi, List.getD_eq_getElem?_getD,
        monthCells_getElem? y m fw _ hflat]
      rw [if_pos hB]
      rfl
    have hpm : 1 ≤ (if 1 < m then m - 1 else 12) ∧ (if 1 < m then m - 1 else 12) ≤ 12 := by
      by_cases h1m : 1 < m <;> simp [h1m] <;> omega
    have hpd := daysInMonth_bounds (if 1 < m then y else y - 1)
      (if 1 < m then m - 1 else 12) hpm.1 hpm.2
    have hprev := toOrdinal_prev_month y m hm1 hm2
    have hpday := toOrdinal_day (if 1 < m then y else y - 1) (if 1 < m then m - 1 else 12)
      (daysInMonth (if 1 < m then y else y - 1) (if 1 < m then m - 1 else 12))
    simp only [resolvedDate]
    rw [hday, if_neg (by omega), if_pos hwi0, hrow, hwi0]
    simp only [Nat.mul_zero, List.drop_zero]
    have hdm : di ⊓ 7 = di := by omega
    rw [List.take_take, hdm]
    rw [countZeros_take_first y m fw hm1 hm2 7 (by omega),
      countZeros_take_first y m fw hm1 hm2 di (by omega)]
    refine ⟨_, rfl, ?_⟩
    simp only [dateOrd]
    rw [toOrdinal_day (if 1 < m then y else y - 1) (if 1 < m then m - 1 else 12)]
    omega
  rcases lt_or_le (7 * wi + di) (monthLead y m fw + daysInMonth y m) with hA | hC
  · -- a day of the displayed month
    refine ⟨_, resolvedDate_current y m fw wi di hm1 hm2 hwi hdi hge hA, ?_⟩
    simp only [dateOrd]
    rw [toOrdinal_day y m]
    omega
  · -- trailing zero of the last week: a next-month day
    have hwiNe0 : ¬ wi = 0 := by omega
    have hlast : wi = (monthcalendar y m fw).length - 1 := by rw [hrows]; omega
    have hday : ((monthcalendar y m fw).getD wi []).getD di 0 = 0 := by
      rw [monthcalendar_entry y m fw wi di hwi hdi, List.getD_eq_getElem?_getD,
        monthCells_getElem? y m fw _ hflat]
      rw [if_neg (by omega), if_neg (by omega)]
      rfl
    have hnm : 1 ≤ (if m < 12 then m + 1 else 1) ∧ (if m < 12 then m + 1 else 1) ≤ 12 := by
      by_cases h1m : m < 12 <;> simp [h1m] <;> omega
    have hnext := toOrdinal_next_month y m hm1 hm2
    have hmday := toOrdinal_day y m (daysInMonth y m)
    simp only [resolvedDate]
    rw [hday, if_neg (by omega), if_neg hwiNe0, if_pos hlast, hrow]
    have hdm : di ⊓ 7 = di := by omega
    rw [List.take_take, hdm]
    rw [countZeros_drop_take y m fw (7 * wi) (by omega) di (by omega)]
    refine ⟨_, rfl, ?_⟩
    simp only [dateOrd]
    rw [toOrdinal_day (if m < 12 then y else y + 1) (if m < 12 then m + 1 else 1)]
    omega

/-- C1 (amended): for every year, every month in 1..12 and every
start-of-week in {Monday = 0, Sunday = 6}, the grid `calendar.monthcalendar`
used by `draw_calendar` has between 4 and 6 rows — it is not padded to the
configured minimum `CALENDAR_MIN_NUM_ROWS` (default 6), which no code reads —
every row has exactly 7 entries, every cell resolves in
`draw_day_boxes_and_events` to a real calendar date with the flattened
sequence of dates strictly increasing by exactly one calendar day
(cell `(wi, di)` has ordinal `toOrdinal y m 1 - lead + (7 * wi + di)`), and
every date of the target month appears in exactly one cell. -/
theorem C1_grid_structure (y : Int) (m fw : Nat)
    (hm1 : 1 ≤ m) (hm2 : m ≤ 12) (hfw : fw = 0 ∨ fw = 6) :
    4 ≤ (monthcalendar y m fw).length ∧
    (monthcalendar y m fw).length ≤ 6 ∧
    (∀ row ∈ monthcalendar y m fw, row.length = 7) ∧
    (∀ wi di : Nat, wi < (monthcalendar y m fw).length → di < 7 →
      ∃ dt : Date3, resolvedDate y m (monthcalendar y m fw) wi di = some dt ∧
        dateOrd dt = toOrdinal y m 1 - (monthLead y m fw : Int) +
          ((7 * wi + di : Nat) : Int)) ∧
    (∀ d : Nat, 1 ≤ d → d ≤ daysInMonth y m →
      ∃! p : Nat × Nat, p.1 < (monthcalendar y m fw).length ∧ p.2 < 7 ∧
        resolvedDate y m (monthcalendar y m fw) p.1 p.2 = some (y, m, d)) := by
  have hlead := monthLead_lt y m fw
  have hnd := daysInMonth_bounds y m hm1 hm2
  have hdvd := seven_dvd_monthCells_length y m fw
  have hlenval := monthCells_length y m fw
  have hrows := monthcalendar_length y m fw
  refine ⟨by rw [hrows]; omega, by rw [hrows]; omega, ?_, ?_, ?_⟩
  · intro row hr
    simp only [monthcalendar, List.mem_map, List.mem_range] at hr
    obtain ⟨r, hrR, rfl⟩ := hr
    simp only [List.length_take, List.length_drop]
    omega
  · exact fun wi di hw hd => resolvedDate_ordinal y m fw wi di hm1 hm2 hw hd
  · intro d hd1 hd2
    have hwiP : (monthLead y m fw + d - 1) / 7 < (monthcalendar y m fw).length := by
      rw [hrows]; omega
    have hdiP : (monthLead y m fw + d - 1) % 7 < 7 := by omega
    have hval : 7 * ((monthLead y m fw + d - 1) / 7) + (monthLead y m fw + d - 1) % 7
        - monthLead y m fw + 1 = d := by omega
    refine ⟨⟨(monthLead y m fw + d - 1) / 7, (monthLead y m fw + d - 1) % 7⟩,
      ⟨hwiP, hdiP, ?_⟩, ?_⟩
    · rw [resolvedDate_current y m fw _ _ hm1 hm2 hwiP hdiP (by omega) (by omega),
        hval]
    · rintro ⟨wi', di'⟩ ⟨hw', hd', hres⟩
      obtain ⟨dt, hdt, hord⟩ := resolvedDate_ordinal y m fw wi' di' hm1 hm2 hw' hd'
      have hdteq : dt = (y, m, d) := Option.some.inj (hdt.symm.trans hres)
      subst hdteq
      simp only [dateOrd] at hord
      rw [toOrdinal_day y m d] at hord
      simp only [Prod.mk.injEq]
      constructor <;> omega

/-- C1 counterexample: for February 2021 with Monday start-of-week the grid
returned by `calendar.monthcalendar` has only 4 rows, below the configured
minimum `CALENDAR_MIN_NUM_ROWS = 6`, which `draw_calendar` never enforces. -/
theorem C1_min_rows_counterexample :
    (monthcalendar 2021 2 0).length = 4 ∧ baseConfig.CALENDAR_MIN_NUM_ROWS = 6 := by
  constructor
  · decide
  · rfl

/-- C1 witness: the amended claim instantiated at March 2025, Sunday start. -/
theorem C1_grid_structure_witness :
    4 ≤ (monthcalendar 2025 3 6).length ∧
    (monthcalendar 2025 3 6).length ≤ 6 ∧
    (∀ row ∈ monthcalendar 2025 3 6, row.length = 7) ∧
    (∀ wi di : Nat, wi < (monthcalendar 2025 3 6).length → di < 7 →
      ∃ dt : Date3, resolvedDate 2025 3 (monthcalendar 2025 3 6) wi di = some dt ∧
        dateOrd dt = toOrdinal 2025 3 1 - (monthLead 2025 3 6 : Int) +
          ((7 * wi + di : Nat) : Int)) ∧
    (∀ d : Nat, 1 ≤ d → d ≤ daysInMonth 2025 3 →
      ∃! p : Nat × Nat, p.1 < (monthcalendar 2025 3 6).length ∧ p.2 < 7 ∧
        resolvedDate 2025 3 (monthcalendar 2025 3 6) p.1 p.2 = some (2025, 3, d)) :=
  C1_grid_structure 2025 3 6 (by decide) (by decide) (Or.inr rfl)

/-! ## hex_to_rgb (src/utils/shared_utils.py, lines 6-18)

Python strings are modelled as `List Char`; `int(s, 16)` is modelled by
`pyIntHex` below (whitespace stripping, optional sign, optional `0x`/`0X`
prefix, hex digits with single underscores allowed between digits). -/

/-- The single error kind the embedded fallible operations raise
(Python `ValueError`). -/
inductive PyErr where
  | valueError
deriving DecidableEq

/-- Whitespace for Python `str.strip` / `int()` stripping. -/
def isPySpace (c : Char) : Bool :=
  c = ' ' || c = '\t' || c = '\n' || c = '\r' || c = '\x0b' || c = '\x0c'

/-- `s.strip()`. -/
def pyStrip (s : List Char) : List Char :=
  ((s.dropWhile isPySpace).reverse.dropWhile isPySpace).reverse

/-- Value of one hex digit (codepoints: digits 48-57, `a`-`f` 97-102,
`A`-`F` 65-70). -/
def hexDigit? (c : Char) : Option Nat :=
  if c.isDigit then some (c.toNat - 48)
  else if 'a' ≤ c ∧ c ≤ 'f' then some (c.toNat - 87)
  else if 'A' ≤ c ∧ c ≤ 'F' then some (c.toNat - 55)
  else none

/-- Hex digits after the first: each may be preceded by a single underscore. -/
def hexTail (acc : Nat) : List Char → Option Nat
  | [] => some acc
  | '_' :: c :: cs =>
    match hexDigit? c with
    | some d => hexTail (16 * acc + d) cs
    | none => none
  | ['_'] => none
  | c :: cs =>
    match hexDigit? c with
    | some d => hexTail (16 * acc + d) cs
    | none => none

/-- A nonempty run of hex digits (with inner underscores). -/
def hexDigits : List Char → Option Nat
  | [] => none
  | c :: cs =>
    match hexDigit? c with
    | some d => hexTail d cs
    | none => none

/-- Python `int(s, 16)`: strip whitespace, optional `+`/`-`, optional
`0x`/`0X` prefix (an underscore may follow the prefix), then hex digits;
anything else raises `ValueError` (modelled as `none`). -/
def pyIntHex (s : List Char) : Option Int :=
  let t := pyStrip s
  let signed : Int × List Char :=
    match t with
    | '+' :: r => (1, r)
    | '-' :: r => (-1, r)
    | r => (1, r)
  let body : List Char :=
    match signed.2 with
    | '0' :: 'x' :: r => (match r with | '_' :: r' => r' | _ => r)
    | '0' :: 'X' :: r => (match r with | '_' :: r' => r' | _ => r)
    | r => r
  match hexDigits body with
  | some v => some (signed.1 * v)
  | none => none

/-- Python slice `s[a:b]`. -/
def pySlice (s : List Char) (a b : Nat) : List Char := (s.take b).drop a

/-- `hex_to_rgb` (src/utils/shared_utils.py): a tuple argument is returned
unchanged; a string is stripped of all leading `#` (`lstrip("#")`) and the
slices `[0:2]`, `[2:4]`, `[4:6]` are each parsed with `int(_, 16)`; if any
slice fails to parse the call raises `ValueError`. -/
def hex_to_rgb : (Int × Int × Int) ⊕ List Char → Except PyErr (Int × Int × Int)
  | .inl t => .ok t
  | .inr s =>
    let h := s.dropWhile (fun c => c = '#')
    match pyIntHex (pySlice h 0 2), pyIntHex (pySlice h 2 4),
        pyIntHex (pySlice h 4 6) with
    | some r, some g, some b => .ok (r, g, b)
    | _, _, _ => .error .valueError

/-- C5 (amended): the color resolver returns an RGB triple unchanged
(idempotent on triples); for a string it strips ALL leading `#` characters
(`lstrip("#")`) and parses the three 2-character slices `[0:2]`, `[2:4]`,
`[4:6]` with Python `int(_, 16)` — so `resolve("#010203") = (1, 2, 3)`,
characters beyond the sixth are ignored, and it fails with a `ValueError`
(the spec's `InvalidColorFormat`) exactly when some slice does not parse,
e.g. for `"bad"`. -/
theorem C5_hex_to_rgb :
    (∀ t : Int × Int × Int, hex_to_rgb (.inl t) = .ok t) ∧
    hex_to_rgb (.inr "#010203".data) = .ok (1, 2, 3) ∧
    hex_to_rgb (.inr "bad".data) = .error .valueError ∧
    (∀ s r g b, pyIntHex (pySlice (s.dropWhile (fun c => c = '#')) 0 2) = some r →
      pyIntHex (pySlice (s.dropWhile (fun c => c = '#')) 2 4) = some g →
      pyIntHex (pySlice (s.dropWhile (fun c => c = '#')) 4 6) = some b →
      hex_to_rgb (.inr s) = .ok (r, g, b)) ∧
    (∀ s, (pyIntHex (pySlice (s.dropWhile (fun c => c = '#')) 0 2) = none ∨
           pyIntHex (pySlice (s.dropWhile (fun c => c = '#')) 2 4) = none ∨
           pyIntHex (pySlice (s.dropWhile (fun c => c = '#')) 4 6) = none) →
      hex_to_rgb (.inr s) = .error .valueError) := by
  refine ⟨fun t => rfl, rfl, rfl, ?_, ?_⟩
  · intro s r g b h1 h2 h3
    simp [hex_to_rgb, h1, h2, h3]
  · intro s h
    rcases h1 : pyIntHex (pySlice (s.dropWhile (fun c => c = '#')) 0 2) with _ | r <;>
      rcases h2 : pyIntHex (pySlice (s.dropWhile (fun c => c = '#')) 2 4) with _ | g <;>
        rcases h3 : pyIntHex (pySlice (s.dropWhile (fun c => c = '#')) 4 6) with _ | b <;>
          simp_all [hex_to_rgb]

/-- C5 counterexample: `"##0102034"` is not an optional `#` followed by
exactly 6 hex digits, so the claim requires failure; the code strips both
`#`s, ignores the seventh digit and succeeds with `(1, 2, 3)`. -/
theorem C5_hex_to_rgb_counterexample :
    hex_to_rgb (.inr "##0102034".data) = .ok (1, 2, 3) := rfl

/-- C5 witness: the parse-success clause applied at the string `"0a141e"`. -/
theorem C5_hex_to_rgb_witness :
    hex_to_rgb (.inr "0a141e".data) = .ok (10, 20, 30) :=
  C5_hex_to_rgb.2.2.2.1 "0a141e".data 10 20 30 rfl rfl rfl

/-! ## wrap_text (src/models/calendar_image_gen.py, lines 193-219)

The font metric `draw.textbbox` is modelled as an arbitrary width function
`width : List Char → Int`; the pixel budget `max_pixel_width` is a Python
float from true division, modelled as `ℚ`. -/

/-- Python `text.split()` with no separator: maximal nonempty runs of
non-whitespace characters. `acc` holds the current word reversed. -/
def pySplitAux (acc : List Char) : List Char → List (List Char)
  | [] => if acc = [] then [] else [acc.reverse]
  | c :: cs =>
    if isPySpace c then
      if acc = [] then pySplitAux [] cs else acc.reverse :: pySplitAux [] cs
    else pySplitAux (c :: acc) cs

/-- `text.split()`. -/
def pySplit (s : List Char) : List (List Char) := pySplitAux [] s

/-- A word produced by `split()`: nonempty, no whitespace characters. -/
def wordOk (w : List Char) : Prop := w ≠ [] ∧ ∀ c ∈ w, isPySpace c = false

/-- The head character, if any, is not whitespace. -/
def headOk (l : List Char) : Prop := ∀ c, l.head? = some c → isPySpace c = false

/-- One step of the word loop of `wrap_text`: the state is
`(lines, current_line)`; `test_line = f"{current_line} {word}".strip()` is
kept when it fits, otherwise the current line is flushed and the word starts
a new line. -/
def wrapStep (width : List Char → Int) (maxW : ℚ)
    (st : List (List Char) × List Char) (w : List Char) :
    List (List Char) × List Char :=
  let testLine := pyStrip (st.2 ++ ' ' :: w)
  if (width testLine : ℚ) ≤ maxW then (st.1, testLine)
  else if st.2 ≠ [] then (st.1 ++ [st.2], w) else (st.1, w)

/-- `wrap_text(text, max_pixel_width, font)`. -/
def wrap_text (width : List Char → Int) (maxW : ℚ) (text : List Char) :
    List (List Char) :=
  let r := (pySplit text).foldl (wrapStep width maxW) ([], [])
  if r.2 ≠ [] then r.1 ++ [r.2] else r.1

/-- Join strings with single spaces, skipping empties. -/
def glue (a b : List Char) : List Char :=
  if a = [] then b else if b = [] then a else a ++ ' ' :: b

/-- Join a list of strings with single spaces. -/
def joinWords : List (List Char) → List Char
  | [] => []
  | w :: ws => glue w (joinWords ws)

@[simp] theorem glue_nil_left (b : List Char) : glue [] b = b := rfl

@[simp] theorem glue_nil_right (a : List Char) : glue a [] = a := by
  by_cases h : a = [] <;> simp [glue, h]

theorem glue_assoc (a b c : List Char) :
    glue (glue a b) c = glue a (glue b c) := by
  by_cases ha : a = [] <;> by_cases hb : b = [] <;> by_cases hc : c = [] <;>
    simp [glue, ha, hb, hc]

theorem joinWords_append (a b : List (List Char)) :
    joinWords (a ++ b) = glue (joinWords a) (joinWords b) := by
  induction a with
  | nil => simp [joinWords]
  | cons w a ih => simp [joinWords, ih, glue_assoc]

theorem headOk_of_all {l : List Char} (h : ∀ c ∈ l, isPySpace c = false) :
    headOk l := by
  intro c hc
  cases l with
  | nil => simp at hc
  | cons a t =>
    simp only [List.head?_cons, Option.some.injEq] at hc
    subst hc
    exact h _ (List.mem_cons_self _ _)

theorem wordOk_head {w : List Char} (h : wordOk w) :
    headOk w ∧ headOk w.reverse :=
  ⟨headOk_of_all h.2, headOk_of_all (fun c hc => h.2 c (List.mem_reverse.mp hc))⟩

theorem dropWhile_headOk {l : List Char} (h : headOk l) :
    l.dropWhile isPySpace = l := by
  cases l with
  | nil => rfl
  | cons c cs => simp [List.dropWhile_cons, h c rfl]

theorem pyStrip_eq_self {l : List Char} (h1 : headOk l) (h2 : headOk l.reverse) :
    pyStrip l = l := by
  unfold pyStrip
  rw [dropWhile_headOk h1, dropWhile_headOk h2, List.reverse_reverse]

theorem head?_append_of_ne_nil {l₁ l₂ : List Char} (h : l₁ ≠ []) :
    (l₁ ++ l₂).head? = l₁.head? := by
  cases l₁ with
  | nil => exact absurd rfl h
  | cons a t => simp

/-- `f"{current_line} {word}".strip()` for an edge-clean current line and a
whitespace-free word. -/
theorem strip_join {cur w : List Char} (hc1 : headOk cur) (hc2 : headOk cur.reverse)
    (hw : wordOk w) :
    pyStrip (cur ++ ' ' :: w) = if cur = [] then w else cur ++ ' ' :: w := by
  have hwh := wordOk_head hw
  by_cases h : cur = []
  · subst h
    simp only [List.nil_append, if_pos rfl]
    unfold pyStrip
    have hsp : isPySpace ' ' = true := rfl
    rw [List.dropWhile_cons]
    rw [if_pos hsp, dropWhile_headOk hwh.1, dropWhile_headOk hwh.2,
      List.reverse_reverse]
    simp
  · rw [if_neg h]
    apply pyStrip_eq_self
    · intro c hc
      rw [head?_append_of_ne_nil h] at hc
      exact hc1 c hc
    · intro c hc
      rw [List.reverse_append] at hc
      have hwrev : w.reverse ≠ [] := by
        simpa using hw.1
      rw [show (' ' :: w).reverse = w.reverse ++ [' '] by simp,
        List.append_assoc, head?_append_of_ne_nil hwrev] at hc
      exact hwh.2 c hc

/-- Every word yielded by `split()` is nonempty and whitespace-free. -/
theorem pySplitAux_wordOk :
    ∀ (l acc : List Char), (∀ c ∈ acc, isPySpace c = false) →
      ∀ w ∈ pySplitAux acc l, wordOk w := by
  intro l
  induction l with
  | nil =>
    intro acc hacc w hw
    simp only [pySplitAux] at hw
    by_cases hacc0 : acc = []
    · rw [if_pos hacc0] at hw
      simp at hw
    · rw [if_neg hacc0] at hw
      simp only [List.mem_singleton] at hw
      subst hw
      exact ⟨by simpa using hacc0, fun d hd => hacc d (List.mem_reverse.mp hd)⟩
  | cons c cs ih =>
    intro acc hacc w hw
    simp only [pySplitAux] at hw
    by_cases hsp : isPySpace c
    · rw [if_pos hsp] at hw
      by_cases hacc0 : acc = []
      · rw [if_pos hacc0] at hw
        exact ih [] (by simp) w hw
      · rw [if_neg hacc0] at hw
        rcases List.mem_cons.mp hw with hw | hw
        · subst hw
          exact ⟨by simpa using hacc0, fun d hd => hacc d (List.mem_reverse.mp hd)⟩
        · exact ih [] (by simp) w hw
    · rw [if_neg hsp] at hw
      refine ih (c :: acc) ?_ w hw
      intro d hd
      rcases List.mem_cons.mp hd with rfl | hd
      · simpa using hsp
      · exact hacc d hd

/-- Edges of `cur ++ ' ' :: w` for nonempty edge-clean `cur` and a word `w`. -/
theorem join_edges {cur w : List Char} (hne : cur ≠ []) (hc1 : headOk cur)
    (hw : wordOk w) :
    headOk (cur ++ ' ' :: w) ∧ headOk (cur ++ ' ' :: w).reverse := by
  have hwh := wordOk_head hw
  constructor
  · intro c hc
    rw [head?_append_of_ne_nil hne] at hc
    exact hc1 c hc
  · intro c hc
    rw [List.reverse_append] at hc
    have hwrev : w.reverse ≠ [] := by simpa using hw.1
    rw [show (' ' :: w).reverse = w.reverse ++ [' '] by simp,
      List.append_assoc, head?_append_of_ne_nil hwrev] at hc
    exact hwh.2 c hc

/-- Invariant of the word loop: flushed lines fit the budget or are single
words of `W`; the current line is empty, or edge-clean and fitting-or-a-word. -/
def wrapInv (width : List Char → Int) (maxW : ℚ) (W : List (List Char))
    (st : List (List Char) × List Char) : Prop :=
  (∀ l ∈ st.1, (width l : ℚ) ≤ maxW ∨ l ∈ W) ∧
  (st.2 = [] ∨ ((headOk st.2 ∧ headOk st.2.reverse) ∧
    ((width st.2 : ℚ) ≤ maxW ∨ st.2 ∈ W)))

theorem wrapStep_spec (width : List Char → Int) (maxW : ℚ) (W : List (List Char))
    (st : List (List Char) × List Char) (w : List Char)
    (hw : wordOk w) (hwW : w ∈ W) (hst : wrapInv width maxW W st) :
    wrapInv width maxW W (wrapStep width maxW st w) ∧
    glue (joinWords (wrapStep width maxW st w).1) (wrapStep width maxW st w).2 =
      glue (glue (joinWords st.1) st.2) w := by
  obtain ⟨hlines, hcur⟩ := hst
  have hwh := wordOk_head hw
  have hc1 : headOk st.2 := by
    rcases hcur with h | h
    · rw [h]; intro c hc; simp at hc
    · exact h.1.1
  have hc2 : headOk st.2.reverse := by
    rcases hcur with h | h
    · rw [h]; intro c hc; simp at hc
    · exact h.1.2
  have hstrip := strip_join hc1 hc2 hw
  have hglue : glue st.2 w = if st.2 = [] then w else st.2 ++ ' ' :: w := by
    by_cases h0 : st.2 = [] <;> simp [glue, h0, hw.1]
  simp only [wrapStep, hstrip]
  by_cases hfit : (width (if st.2 = [] then w else st.2 ++ ' ' :: w) : ℚ) ≤ maxW
  · rw [if_pos hfit]
    refine ⟨⟨hlines, Or.inr ⟨?_, Or.inl hfit⟩⟩, ?_⟩
    · by_cases h0 : st.2 = []
      · rw [if_pos h0]
        exact hwh
      · rw [if_neg h0]
        exact join_edges h0 hc1 hw
    · rw [glue_assoc, hglue]
  · rw [if_neg hfit]
    by_cases h0 : st.2 = []
    · rw [if_neg (by simpa using h0)]
      refine ⟨⟨hlines, Or.inr ⟨hwh, Or.inr hwW⟩⟩, ?_⟩
      rw [h0]
      simp
    · rw [if_pos (by simpa using h0)]
      refine ⟨⟨?_, Or.inr ⟨hwh, Or.inr hwW⟩⟩, ?_⟩
      · intro l hl
        rcases List.mem_append.mp hl with hl | hl
        · exact hlines l hl
        · rw [List.mem_singleton.mp hl]
          rcases hcur with h | h
          · exact absurd h h0
          · exact h.2
      · rw [joinWords_append]
        simp [joinWords]

theorem wrapFold_spec (width : List Char → Int) (maxW : ℚ) (W : List (List Char)) :
    ∀ (ws : List (List Char)) (st : List (List Char) × List Char),
      (∀ w ∈ ws, wordOk w ∧ w ∈ W) → wrapInv width maxW W st →
      wrapInv width maxW W (ws.foldl (wrapStep width maxW) st) ∧
      glue (joinWords (ws.foldl (wrapStep width maxW) st).1)
          (ws.foldl (wrapStep width maxW) st).2 =
        glue (glue (joinWords st.1) st.2) (joinWords ws) := by
  intro ws
  induction ws with
  | nil =>
    intro st _ hst
    exact ⟨hst, by simp [joinWords]⟩
  | cons w ws ih =>
    intro st hws hst
    have hw := hws w (List.mem_cons_self _ _)
    have hstep := wrapStep_spec width maxW W st w hw.1 hw.2 hst
    have hrest := ih (wrapStep width maxW st w)
      (fun x hx => hws x (List.mem_cons_of_mem _ hx)) hstep.1
    refine ⟨hrest.1, ?_⟩
    rw [List.foldl_cons, hrest.2, hstep.2, glue_assoc]
    rfl

/-- C3 (confirmed): joining the lines returned by `wrap_text` with single
spaces reproduces the whitespace-normalized input text (its `split()` words
joined by single spaces); every returned line's measured width fits the
budget unless the line is a single input word whose own width exceeds the
budget (words are never split mid-word); and input with no words — empty or
all whitespace — yields an empty list of lines. -/
theorem C3_wrap_text (width : List Char → Int) (maxW : ℚ) (text : List Char) :
    joinWords (wrap_text width maxW text) = joinWords (pySplit text) ∧
    (∀ line ∈ wrap_text width maxW text,
      (width line : ℚ) ≤ maxW ∨ (line ∈ pySplit text ∧ maxW < (width line : ℚ))) ∧
    (pySplit text = [] → wrap_text width maxW text = []) := by
  have hwords : ∀ w ∈ pySplit text, wordOk w ∧ w ∈ pySplit text :=
    fun w hw => ⟨pySplitAux_wordOk text [] (by simp) w hw, hw⟩
  have h0 : wrapInv width maxW (pySplit text) ([], []) := ⟨by simp, Or.inl rfl⟩
  have hfold := wrapFold_spec width maxW (pySplit text) (pySplit text) ([], [])
    hwords h0
  obtain ⟨⟨hlines, hcur⟩, hjoin⟩ := hfold
  simp only [joinWords, glue_nil_left] at hjoin
  refine ⟨?_, ?_, ?_⟩
  · simp only [wrap_text]
    by_cases h2 : ((pySplit text).foldl (wrapStep width maxW) ([], [])).2 = []
    · rw [if_neg (by simpa using h2)]
      rw [← hjoin, h2, glue_nil_right]
    · rw [if_pos (by simpa using h2)]
      rw [← hjoin, joinWords_append]
      simp [joinWords]
  · intro line hline
    simp only [wrap_text] at hline
    have hQ : (width line : ℚ) ≤ maxW ∨ line ∈ pySplit text := by
      by_cases h2 : ((pySplit text).foldl (wrapStep width maxW) ([], [])).2 = []
      · rw [if_neg (by simpa using h2)] at hline
        exact hlines line hline
      · rw [if_pos (by simpa using h2)] at hline
        rcases List.mem_append.mp hline with hl | hl
        · exact hlines line hl
        · rw [List.mem_singleton.mp hl]
          rcases hcur with h | h
          · exact absurd h h2
          · exact h.2
    by_cases hfit : (width line : ℚ) ≤ maxW
    · exact Or.inl hfit
    · rcases hQ with h | h
      · exact absurd h hfit
      · exact Or.inr ⟨h, lt_of_not_le hfit⟩
  · intro hsplit
    simp [wrap_text, hsplit]

/-- C3 witness: all-whitespace input yields no lines, at a concrete width
function and budget. -/
theorem C3_wrap_text_witness :
    wrap_text (fun l => (l.length : Int)) 5 " \t ".data = [] :=
  (C3_wrap_text (fun l => (l.length : Int)) 5 " \t ".data).2.2 (by rfl)

/-! ## read_events_db (src/models/calendar_image_gen.py, lines 25-57)

The SQLite access is modelled as an `Except`-valued fetch of the rows of
`SELECT event_datetime, title FROM events`; a column value is
`Option (List Char)` where `none` is SQL NULL (on which Python `.strip()`
raises `AttributeError`). -/

/-- A database row `(event_datetime, title)`. -/
abbrev DbRow := Option (List Char) × Option (List Char)

/-- A parsed `%Y-%m-%d %H:%M` timestamp. -/
structure Stamp where
  year : Int
  month : Nat
  day : Nat
  hour : Nat
  minute : Nat
deriving DecidableEq

/-- Maximal leading run of decimal digits, and the rest. -/
def digitSpan (l : List Char) : List Char × List Char :=
  (l.takeWhile Char.isDigit, l.dropWhile Char.isDigit)

/-- Value of a string of decimal digits. -/
def digitsToNat (ds : List Char) : Nat :=
  ds.foldl (fun a c => 10 * a + (c.toNat - 48)) 0

/-- `datetime.strptime(s, "%Y-%m-%d %H:%M")`, including the range checks of
the compiled format regex and of the `datetime` constructor. Each numeric
field of the format is followed by a non-digit, so a successful match splits
the input at maximal digit runs: exactly 4 digits for `%Y`; 1-2 digits with
value 1..12 for `%m` (a two-digit `00` is rejected), 1..31 for `%d`,
0..23 for `%H`, 0..59 for `%M`; literal `-` and `:`; one or more whitespace
characters for the format's space; nothing left over. The constructor then
requires year ≥ 1 and the day to exist in the month. -/
def strptimeYmdHM (s : List Char) : Option Stamp :=
  let (ys, r1) := digitSpan s
  if ys.length = 4 then
    match r1 with
    | '-' :: r2 =>
      let (ms, r3) := digitSpan r2
      if (ms.length = 1 ∨ ms.length = 2) ∧ 1 ≤ digitsToNat ms ∧ digitsToNat ms ≤ 12 then
        match r3 with
        | '-' :: r4 =>
          let (ds, r5) := digitSpan r4
          if (ds.length = 1 ∨ ds.length = 2) ∧ 1 ≤ digitsToNat ds ∧ digitsToNat ds ≤ 31 then
            if r5.takeWhile isPySpace ≠ [] then
              let (hs, r7) := digitSpan (r5.dropWhile isPySpace)
              if (hs.length = 1 ∨ hs.length = 2) ∧ digitsToNat hs ≤ 23 then
                match r7 with
                | ':' :: r8 =>
                  let (mins, r9) := digitSpan r8
                  if (mins.length = 1 ∨ mins.length = 2) ∧ digitsToNat mins ≤ 59 ∧ r9 = [] then
                    if 1 ≤ (digitsToNat ys : Int) ∧
                        digitsToNat ds ≤ daysInMonth (digitsToNat ys) (digitsToNat ms) then
                      some ⟨(digitsToNat ys : Int), digitsToNat ms, digitsToNat ds,
                        digitsToNat hs, digitsToNat mins⟩
                    else none
                  else none
                | _ => none
              else none
            else none
          else none
        | _ => none
      else none
    | _ => none
  else none

/-- Decimal digit character. -/
def digitChar (d : Nat) : Char :=
  match d with
  | 0 => '0' | 1 => '1' | 2 => '2' | 3 => '3' | 4 => '4'
  | 5 => '5' | 6 => '6' | 7 => '7' | 8 => '8' | 9 => '9'
  | _ => '*'

/-- Two-digit zero-padded rendering, as `strftime("%H")` / `strftime("%M")`
produce for values below 100. -/
def pad2 (n : Nat) : List Char := [digitChar (n / 10), digitChar (n % 10)]

/-- `dt.strftime("%H:%M")`. -/
def hhmm (h mi : Nat) : List Char := pad2 h ++ ':' :: pad2 mi

/-- The event string built by the row loop: the bare trimmed title when
`dt.strftime("%H:%M") == "00:00"`, else `f"{dt.strftime('%H:%M')} - {title.strip()}"`. -/
def renderEvent (st : Stamp) (title : List Char) : List Char :=
  if hhmm st.hour st.minute = hhmm 0 0 then pyStrip title
  else hhmm st.hour st.minute ++ ' ' :: '-' :: ' ' :: pyStrip title

/-- Lookup in an insertion-ordered association list (Python dict access). -/
def dictGet (m : List (Date3 × List (List Char))) (k : Date3) :
    Option (List (List Char)) :=
  match m with
  | [] => none
  | (k', v) :: rest => if k' = k then some v else dictGet rest k

/-- `events.setdefault(k, [])`: insert an empty list at the end if absent. -/
def setdefault (m : List (Date3 × List (List Char))) (k : Date3) :
    List (Date3 × List (List Char)) :=
  match dictGet m k with
  | some _ => m
  | none => m ++ [(k, [])]

/-- `event_list.append(v)` on the list stored at key `k`. -/
def appendAt (m : List (Date3 × List (List Char))) (k : Date3) (v : List Char) :
    List (Date3 × List (List Char)) :=
  m.map (fun p => if p.1 = k then (p.1, p.2 ++ [v]) else p)

/-- The row loop of `read_events_db`. A `none` (NULL) timestamp or title
raises `AttributeError` at `.strip()`, which the inner `except ValueError`
does not catch: control reaches the outer handler and the events collected
so far are returned. A timestamp that fails `strptime` raises `ValueError`,
which the inner handler catches: the row is skipped. Note that
`events.setdefault(dt.date(), [])` runs before `title.strip()`. -/
def readRows : List DbRow → List (Date3 × List (List Char)) →
    List (Date3 × List (List Char))
  | [], acc => acc
  | (dateStr, title) :: rest, acc =>
    match dateStr with
    | none => acc
    | some ds =>
      match strptimeYmdHM (pyStrip ds) with
      | none => readRows rest acc
      | some st =>
        match title with
        | none => setdefault acc (st.year, st.month, st.day)
        | some t =>
          readRows rest (appendAt (setdefault acc (st.year, st.month, st.day))
            (st.year, st.month, st.day) (renderEvent st t))

/-- `read_events_db`: a database-level failure (missing file, bad schema,
failed query) is caught by the outer handler before any row is processed, so
the empty mapping is returned; otherwise the fetched rows are folded. -/
def read_events_db (fetch : Except (List Char) (List DbRow)) :
    List (Date3 × List (List Char)) :=
  match fetch with
  | .error _ => []
  | .ok rows => readRows rows []

/-- The event string the spec prescribes for a parsed row (bare trimmed title
at midnight, `"HH:MM - "` plus trimmed title otherwise), written from the
spec's wording for comparison with `renderEvent`. -/
def specRender (st : Stamp) (title : List Char) : List Char :=
  if st.hour = 0 ∧ st.minute = 0 then pyStrip title
  else pad2 st.hour ++ ':' :: pad2 st.minute ++ ' ' :: '-' :: ' ' :: pyStrip title

/-- The list of event strings the spec assigns to date `d`: renderings of the
rows bearing that date, in source order. -/
def specEventsAt (d : Date3) (rows : List DbRow) : List (List Char) :=
  rows.filterMap (fun r =>
    match r with
    | (some ds, some t) =>
      match strptimeYmdHM (pyStrip ds) with
      | some st =>
        if (st.year, st.month, st.day) = d then some (specRender st t) else none
      | none => none
    | _ => none)

theorem digitChar_inj0 {a : Nat} (ha : a ≤ 9) (h : digitChar a = digitChar 0) :
    a = 0 := by
  interval_cases a <;> first | rfl | exact absurd h (by decide)

/-- `strftime("%H:%M") == "00:00"` holds exactly at midnight, for in-range
hours and minutes. -/
theorem hhmm_eq_midnight {h mi : Nat} (hh : h ≤ 23) (hm : mi ≤ 59) :
    hhmm h mi = hhmm 0 0 ↔ h = 0 ∧ mi = 0 := by
  constructor
  · intro he
    simp only [hhmm, pad2, Nat.zero_div, Nat.zero_mod, List.cons_append,
      List.nil_append, List.cons.injEq, and_true, true_and] at he
    have e1 := digitChar_inj0 (a := h / 10) (by omega) he.1
    have e2 := digitChar_inj0 (a := h % 10) (by omega) he.2.1
    have e3 := digitChar_inj0 (a := mi / 10) (by omega) he.2.2.1
    have e4 := digitChar_inj0 (a := mi % 10) (by omega) he.2.2.2
    omega
  · rintro ⟨rfl, rfl⟩
    rfl

theorem strptimeYmdHM_bounds {s : List Char} {st : Stamp}
    (h : strptimeYmdHM s = some st) :
    st.hour ≤ 23 ∧ st.minute ≤ 59 := by
  unfold strptimeYmdHM at h
  repeat split at h
  any_goals exact Option.noConfusion h
  injection h with h'
  subst h'
  refine ⟨by simp_all, by simp_all⟩

/-- The code's `"00:00"` string test agrees with the spec's
hour-and-minute-zero test. -/
theorem renderEvent_eq_specRender (st : Stamp) (t : List Char)
    (hh : st.hour ≤ 23) (hm : st.minute ≤ 59) :
    renderEvent st t = specRender st t := by
  unfold renderEvent specRender
  by_cases h : st.hour = 0 ∧ st.minute = 0
  · rw [if_pos ((hhmm_eq_midnight hh hm).mpr h), if_pos h]
  · rw [if_neg (fun he => h ((hhmm_eq_midnight hh hm).mp he)), if_neg h]
    simp [hhmm]

theorem dictGet_appendAt_self (m : List (Date3 × List (List Char))) (k v) :
    dictGet (appendAt m k v) k = (dictGet m k).map (fun l => l ++ [v]) := by
  induction m with
  | nil => rfl
  | cons p rest ih =>
    obtain ⟨k', v'⟩ := p
    simp only [appendAt, List.map_cons] at ih ⊢
    by_cases h : k' = k
    · subst h
      rw [if_pos rfl]
      simp [dictGet]
    · rw [if_neg h]
      simp only [dictGet, if_neg h]
      exact ih

theorem dictGet_appendAt_ne (m : List (Date3 × List (List Char))) (k v d)
    (h : d ≠ k) :
    dictGet (appendAt m k v) d = dictGet m d := by
  induction m with
  | nil => rfl
  | cons p rest ih =>
    obtain ⟨k', v'⟩ := p
    simp only [appendAt, List.map_cons] at ih ⊢
    by_cases hk : k' = k
    · rw [if_pos hk]
      have hd : ¬ k' = d := fun he => h (he ▸ hk)
      simp only [dictGet, if_neg hd]
      exact ih
    · rw [if_neg hk]
      by_cases hd : k' = d
      · simp [dictGet, hd]
      · simp only [dictGet, if_neg hd]
        exact ih

theorem dictGet_append (m m' : List (Date3 × List (List Char))) (d) :
    dictGet (m ++ m') d = match dictGet m d with
      | some v => some v
      | none => dictGet m' d := by
  induction m with
  | nil => simp [dictGet]
  | cons p rest ih =>
    obtain ⟨k', v'⟩ := p
    simp only [List.cons_append, dictGet]
    by_cases hk : k' = d
    · simp [hk]
    · simp [hk, ih]

theorem dictGet_setdefault_self (m : List (Date3 × List (List Char))) (k) :
    dictGet (setdefault m k) k = some ((dictGet m k).getD []) := by
  unfold setdefault
  cases hg : dictGet m k with
  | some l => simp [hg]
  | none =>
    rw [dictGet_append, hg]
    simp [dictGet]

theorem dictGet_setdefault_ne (m : List (Date3 × List (List Char))) (k d)
    (h : d ≠ k) :
    dictGet (setdefault m k) d = dictGet m d := by
  unfold setdefault
  cases hg : dictGet m k with
  | some l => rfl
  | none =>
    rw [dictGet_append]
    cases hd : dictGet m d with
    | some l => rfl
    | none =>
      simp only [dictGet]
      rw [if_neg (fun he => h he.symm)]

/-- Effect of `events.setdefault(k, []).append(v)` on lookups. -/
theorem dictGet_update (acc : List (Date3 × List (List Char))) (k v d) :
    dictGet (appendAt (setdefault acc k) k v) d =
      if d = k then some ((dictGet acc k).getD [] ++ [v]) else dictGet acc d := by
  by_cases h : d = k
  · subst h
    rw [if_pos rfl, dictGet_appendAt_self, dictGet_setdefault_self]
    rfl
  · rw [if_neg h, dictGet_appendAt_ne _ _ _ _ h, dictGet_setdefault_ne _ _ _ h]

/-- How a list of events combines with an existing dict entry. -/
def combine (o : Option (List (List Char))) (e : List (List Char)) :
    Option (List (List Char)) :=
  match o with
  | some l => some (l ++ e)
  | none => if e = [] then none else some e

theorem readRows_dictGet :
    ∀ (rows : List DbRow),
      (∀ r ∈ rows, ∃ ds t st, r = (some ds, some t) ∧
        strptimeYmdHM (pyStrip ds) = some st) →
      ∀ acc d, dictGet (readRows rows acc) d =
        combine (dictGet acc d) (specEventsAt d rows) := by
  intro rows
  induction rows with
  | nil =>
    intro _ acc d
    simp only [readRows, specEventsAt, List.filterMap_nil]
    cases hacc : dictGet acc d <;> simp [combine]
  | cons r rest ih =>
    intro hrows acc d
    obtain ⟨ds, t, st, rfl, hparse⟩ := hrows r (List.mem_cons_self _ _)
    have hbounds := strptimeYmdHM_bounds hparse
    have hrender := renderEvent_eq_specRender st t hbounds.1 hbounds.2
    have hspec : specEventsAt d ((some ds, some t) :: rest) =
        if (st.year, st.month, st.day) = d then
          specRender st t :: specEventsAt d rest
        else specEventsAt d rest := by
      simp only [specEventsAt, List.filterMap_cons, hparse]
      by_cases h : (st.year, st.month, st.day) = d <;> simp [h]
    simp only [readRows, hparse]
    rw [ih (fun x hx => hrows x (List.mem_cons_of_mem _ hx)), hspec, dictGet_update]
    by_cases h : d = (st.year, st.month, st.day)
    · rw [if_pos h, if_pos h.symm, ← h]
      cases hacc : dictGet acc d with
      | some l => simp [combine, hrender]
      | none => simp [combine, hrender]
    · rw [if_neg h, if_neg (fun he => h he.symm)]

/-- C4 (confirmed): for rows whose timestamps all parse as
`YYYY-MM-DD HH:MM` (and whose titles are strings), the projection maps each
date to the list of its rows' renderings in source insertion order — the bare
trimmed title at time 00:00, `"HH:MM - "` plus the trimmed title otherwise —
and dates with no events are absent from the mapping. -/
theorem C4_read_events_db (rows : List DbRow)
    (hrows : ∀ r ∈ rows, ∃ ds t st, r = (some ds, some t) ∧
      strptimeYmdHM (pyStrip ds) = some st) (d : Date3) :
    dictGet (read_events_db (.ok rows)) d =
      if specEventsAt d rows = [] then none
      else some (specEventsAt d rows) := by
  have h := readRows_dictGet rows hrows [] d
  simpa [read_events_db, combine, dictGet] using h

/-- C4 witness: the spec's own example, evaluated. -/
theorem C4_read_events_db_witness :
    dictGet (read_events_db (.ok
      [(some "2025-03-10 00:00".data, some "Birthday".data),
       (some "2025-03-10 09:30".data, some "Standup".data)])) (2025, 3, 10) =
      some ["Birthday".data, "09:30 - Standup".data] := by
  rw [C4_read_events_db
    [(some "2025-03-10 00:00".data, some "Birthday".data),
     (some "2025-03-10 09:30".data, some "Standup".data)]
    (by
      intro r hr
      simp only [List.mem_cons, List.not_mem_nil, or_false] at hr
      rcases hr with rfl | rfl
      · exact ⟨_, _, ⟨2025, 3, 10, 0, 0⟩, rfl, rfl⟩
      · exact ⟨_, _, ⟨2025, 3, 10, 9, 30⟩, rfl, rfl⟩)
    (2025, 3, 10)]
  rfl

theorem readRows_skip (ds : List Char) (t : Option (List Char))
    (hbad : strptimeYmdHM (pyStrip ds) = none) :
    ∀ (pre post : List DbRow) (acc : List (Date3 × List (List Char))),
      readRows (pre ++ (some ds, t) :: post) acc = readRows (pre ++ post) acc := by
  intro pre
  induction pre with
  | nil =>
    intro post acc
    simp [readRows, hbad]
  | cons r pre ih =>
    intro post acc
    obtain ⟨dOpt, tOpt⟩ := r
    cases dOpt with
    | none => simp [readRows]
    | some ds' =>
      cases hp : strptimeYmdHM (pyStrip ds') with
      | none => simp [readRows, hp, ih]
      | some st =>
        cases tOpt with
        | none => simp [readRows, hp]
        | some t' => simp [readRows, hp, ih]

/-- C8 (confirmed): a row whose timestamp does not parse as
`YYYY-MM-DD HH:MM` is skipped — the projection of the rows with the
malformed row inserted equals the projection without it, so the row
contributes nothing and never aborts the projection (which is total). -/
theorem C8_read_events_db (pre post : List DbRow) (ds : List Char)
    (t : Option (List Char)) (hbad : strptimeYmdHM (pyStrip ds) = none) :
    read_events_db (.ok (pre ++ (some ds, t) :: post)) =
      read_events_db (.ok (pre ++ post)) := by
  simp only [read_events_db]
  exact readRows_skip ds t hbad pre post []

/-- C8 witness: the spec's malformed row `("2025/03/10", "X")` is skipped. -/
theorem C8_read_events_db_witness :
    read_events_db (.ok [(some "2025/03/10".data, some "X".data),
      (some "2025-03-10 09:30".data, some "Standup".data)]) =
      read_events_db (.ok [(some "2025-03-10 09:30".data, some "Standup".data)]) :=
  C8_read_events_db [] [(some "2025-03-10 09:30".data, some "Standup".data)]
    "2025/03/10".data (some "X".data) rfl

theorem readRows_abort (t : Option (List Char)) :
    ∀ (pre post : List DbRow) (acc : List (Date3 × List (List Char))),
      readRows (pre ++ (none, t) :: post) acc = readRows pre acc := by
  intro pre
  induction pre with
  | nil =>
    intro post acc
    simp [readRows]
  | cons r pre ih =>
    intro post acc
    obtain ⟨dOpt, tOpt⟩ := r
    cases dOpt with
    | none => simp [readRows]
    | some ds' =>
      cases hp : strptimeYmdHM (pyStrip ds') with
      | none => simp [readRows, hp, ih]
      | some st =>
        cases tOpt with
        | none => simp [readRows, hp]
        | some t' => simp [readRows, hp, ih]

/-- C10 (confirmed): `read_events_db` never propagates an exception — it is a
total function of the fetch outcome. A database-level failure (missing file,
bad schema, failed query) yields the empty mapping; an uncatchable mid-loop
failure (a NULL `event_datetime`, whose `.strip()` raises `AttributeError`)
yields exactly the mapping accumulated from the rows before it. -/
theorem C10_read_events_db :
    (∀ e, read_events_db (.error e) = []) ∧
    (∀ (pre post : List DbRow) (t : Option (List Char)),
      read_events_db (.ok (pre ++ (none, t) :: post)) =
        read_events_db (.ok pre)) :=
  ⟨fun _ => rfl, fun pre post t => readRows_abort t pre post []⟩

/-! ## load_fonts (src/models/calendar_image_gen.py, lines 135-155) -/

/-- A loaded font: the configured truetype file at some size, or the PIL
built-in default. -/
inductive Font where
  | truetype (size : Nat)
  | builtin
deriving DecidableEq

/-- `load_fonts`: the three `ImageFont.truetype` calls run inside one `try`;
`ok1 ok2 ok3` say whether each call succeeds (loading is an environment
effect). The first failure jumps to the handler, which assigns the built-in
default font to all three variables and logs a warning. -/
def load_fonts (ok1 ok2 ok3 : Bool) (titleSize daySize eventSize : Nat) :
    Font × Font × Font :=
  if ok1 then
    if ok2 then
      if ok3 then (.truetype titleSize, .truetype daySize, .truetype eventSize)
      else (.builtin, .builtin, .builtin)
    else (.builtin, .builtin, .builtin)
  else (.builtin, .builtin, .builtin)

/-- C9 (confirmed): if loading the font at any of the three configured sizes
fails, all three returned fonts are the built-in default — never a mix of
configured and default fonts — and the loader always returns (font-load
failure is recoverable, not fatal): every outcome is either all-truetype at
the three configured sizes or all-default. -/
theorem C9_load_fonts (ok1 ok2 ok3 : Bool) (ts ds es : Nat) :
    (¬ (ok1 = true ∧ ok2 = true ∧ ok3 = true) →
      load_fonts ok1 ok2 ok3 ts ds es = (.builtin, .builtin, .builtin)) ∧
    (load_fonts ok1 ok2 ok3 ts ds es =
        (.truetype ts, .truetype ds, .truetype es) ∨
      load_fonts ok1 ok2 ok3 ts ds es = (.builtin, .builtin, .builtin)) := by
  cases ok1 <;> cases ok2 <;> cases ok3 <;> simp [load_fonts]

/-- C9 witness: the event-size load failing forces all three to the default. -/
theorem C9_load_fonts_witness :
    load_fonts true true false 16 16 11 = (.builtin, .builtin, .builtin) :=
  (C9_load_fonts true true false 16 16 11).1 (by simp)

/-! ## The rendering pipeline (draw_calendar, draw_weekday_headers,
draw_day_boxes_and_events)

PIL drawing is modelled as an emitted list of commands carrying all geometry
and color decisions. Coordinates are exact rationals (the Python floats here
come from true division and from adding integers, which floats perform
exactly at these magnitudes). Font metrics (`draw.textbbox`) enter as width
functions. `today` is the date `draw_calendar` reads from the wall clock
(`datetime.today().date()`), made an explicit argument. -/

/-- An RGB color (after `hex_to_rgb`). -/
abbrev RGB := Int × Int × Int

/-- A drawing command. -/
inductive Cmd where
  | background (w h : Int) (color : RGB)
  | rect (left top right bottom : ℚ) (fill : Option RGB) (outline : RGB)
      (lineWidth : Nat)
  | text (x y : ℚ) (s : List Char) (color : RGB)
  | warnOverflow (d : Date3)
deriving DecidableEq

/-- `tuple(max(0, int(c * 0.5)) for c in color)`: the 50% dim applied to
day numbers of adjacent-month cells (0.5 is exact in binary floating point). -/
def dimHalf (c : RGB) : RGB :=
  (max 0 (c.1 / 2), max 0 (c.2.1 / 2), max 0 (c.2.2 / 2))

/-- `tuple(max(0, int(c * 0.6)) for c in color)`: the 60% dim applied to
adjacent-month event text. `0.6` is not exact in binary floating point; the
multiplication is modelled exactly, which agrees with CPython on all byte
values and in any case only affects the color payload, never geometry. -/
def dimSixty (c : RGB) : RGB :=
  (max 0 (3 * c.1 / 5), max 0 (3 * c.2.1 / 5), max 0 (3 * c.2.2 / 5))

/-- `calendar.month_name[m]`. -/
def monthName (m : Nat) : List Char :=
  match m with
  | 1 => "January".data
  | 2 => "February".data
  | 3 => "March".data
  | 4 => "April".data
  | 5 => "May".data
  | 6 => "June".data
  | 7 => "July".data
  | 8 => "August".data
  | 9 => "September".data
  | 10 => "October".data
  | 11 => "November".data
  | 12 => "December".data
  | _ => []

/-- `calendar.day_abbr[i]` (0 = Monday). -/
def dayAbbr (i : Nat) : List Char :=
  match i with
  | 0 => "Mon".data
  | 1 => "Tue".data
  | 2 => "Wed".data
  | 3 => "Thu".data
  | 4 => "Fri".data
  | 5 => "Sat".data
  | 6 => "Sun".data
  | _ => []

/-- `str(n)` for the integers appearing here. -/
def intStr (y : Int) : List Char :=
  if y < 0 then '-' :: Nat.toDigits 10 (-y).toNat else Nat.toDigits 10 y.toNat

/-- `(IMG_WIDTH - MARGIN_LEFT - MARGIN_RIGHT) / 7`. -/
def cellWidthQ (cfg : Cfg) : ℚ :=
  ((cfg.IMG_WIDTH - cfg.MARGIN_LEFT - cfg.MARGIN_RIGHT : Int) : ℚ) / 7

/-- `(IMG_HEIGHT - MARGIN_TOP - MARGIN_BOTTOM - 100) / len(month_grid)`. -/
def cellHeightQ (cfg : Cfg) (rows : Nat) : ℚ :=
  ((cfg.IMG_HEIGHT - cfg.MARGIN_TOP - cfg.MARGIN_BOTTOM - 100 : Int) : ℚ) / rows

/-- The inner line loop: one text command per wrapped line, the y cursor
advancing by 12. -/
def eventLineCmds (x : ℚ) (fill : RGB) : List (List Char) → ℚ → List Cmd
  | [], _ => []
  | l :: ls, y => .text x y l fill :: eventLineCmds x fill ls (y + 12)

/-- The event loop of one cell (lines 343-359): each event's wrapped lines
are all drawn; only then is the cursor compared with the cell bottom — on
overflow a warning is logged and the loop breaks. -/
def drawEvents (width : List Char → Int) (maxW x : ℚ) (fill : RGB)
    (bottom : ℚ) (d : Date3) : List (List Char) → ℚ → List Cmd
  | [], _ => []
  | e :: es, y =>
    let ls := wrap_text width maxW e
    let y' := y + 12 * ls.length
    eventLineCmds x fill ls y ++
      (if y' > bottom then [.warnOverflow d]
       else drawEvents width maxW x fill bottom d es y')

/-- The body of `draw_day_boxes_and_events` for cell `(wi, di)`. -/
def cellCmds (cfg : Cfg) (eventWidth : List Char → Int) (y : Int) (m : Nat)
    (grid : List (List Nat)) (events : List (Date3 × List (List Char)))
    (cellW cellH : ℚ) (today : Date3) (wi di : Nat) : List Cmd :=
  let cellLeft := (cfg.MARGIN_LEFT : ℚ) + di * cellW
  let cellTop := (cfg.MARGIN_TOP : ℚ) + 100 + wi * cellH
  let cellRight := cellLeft + cellW
  let cellBottom := cellTop + cellH
  let day := (grid.getD wi []).getD di 0
  let inCurrentMonth := day ≠ 0
  let dt? := resolvedDate y m grid wi di
  let displayStr := match dt? with
    | some (_, _, dd) => intStr dd
    | none => []
  let isCurrentDay := day ≠ 0 ∧ dt? = some today
  (if isCurrentDay then
    [Cmd.rect cellLeft cellTop cellRight cellBottom
      (some cfg.TODAY_CELL_BG_COLOR) cfg.GRID_COLOR 2]
  else
    [Cmd.rect cellLeft cellTop cellRight cellBottom none cfg.GRID_COLOR 2]) ++
  (if displayStr ≠ [] then
    [Cmd.text (cellLeft + 7) (cellTop + 5) displayStr
      (if inCurrentMonth then cfg.TEXT_COLOR else dimHalf cfg.TEXT_COLOR)]
  else []) ++
  (match dt? with
   | some dt =>
     match dictGet events dt with
     | some evs =>
       let fill :=
         if dt = today then cfg.TODAY_EVENT_COLOR else cfg.EVENT_COLOR
       let fill :=
         if ¬ inCurrentMonth ∧ dt ≠ today then dimSixty fill else fill
       drawEvents eventWidth (cellW - 20) (cellLeft + 10) fill cellBottom dt
         evs (cellTop + 25)
     | none => []
   | none => [])

/-- `draw_weekday_headers`. -/
def headerCmds (cfg : Cfg) (cellW : ℚ) (fw : Nat) : List Cmd :=
  (List.range 7).map (fun (i : Nat) =>
    Cmd.text ((cfg.MARGIN_LEFT : ℚ) + (i : ℚ) * cellW + 20 + 20)
      ((cfg.MARGIN_TOP : ℚ) + 60) (dayAbbr ((fw + i) % 7)) cfg.TEXT_COLOR)

/-- All geometry and color decisions of `draw_calendar`: background, centered
title, weekday headers, then every grid cell with its day number and events. -/
def draw_calendar (cfg : Cfg) (titleW : List Char → Int)
    (eventWidth : List Char → Int) (y : Int) (m : Nat)
    (events : List (Date3 × List (List Char))) (fw : Nat) (today : Date3) :
    List Cmd :=
  let grid := monthcalendar y m fw
  let cellW := cellWidthQ cfg
  let cellH := cellHeightQ cfg grid.length
  let title := monthName m ++ ' ' :: intStr y
  Cmd.background cfg.IMG_WIDTH cfg.IMG_HEIGHT cfg.BACKGROUND_COLOR ::
  Cmd.text ((((cfg.IMG_WIDTH : Int) : ℚ) - titleW title) / 2)
    ((cfg.MARGIN_TOP : ℚ)) title cfg.TEXT_COLOR ::
  (headerCmds cfg cellW fw ++
    (List.range grid.length).flatMap (fun wi =>
      (List.range (grid.getD wi []).length).flatMap (fun di =>
        cellCmds cfg eventWidth y m grid events cellW cellH today wi di)))

/-- Which events of a cell are drawn: the first event unconditionally, each
further event only when the cursor after the previous event did not exceed
the cell bottom. Each kept event is paired with its starting y. -/
def keptEvents (width : List Char → Int) (maxW bottom : ℚ) :
    List (List Char) → ℚ → List (ℚ × List Char)
  | [], _ => []
  | e :: es, y =>
    let ls := wrap_text width maxW e
    let y' := y + 12 * ls.length
    (y, e) :: (if y' > bottom then [] else keptEvents width maxW bottom es y')

/-- C2 (amended): the overflow check runs only BETWEEN events, after all
wrapped lines of an event are already drawn: the drawn commands are exactly
all lines (12 px apart) of the kept events — so every line of a kept event is
drawn even when it lies below the cell's bottom edge — followed by one logged
overflow warning exactly when some kept event ran past the bottom; no event
after an overflowing one is drawn, and truncation never raises (the loop is
a total function). -/
theorem C2_draw_events (width : List Char → Int) (maxW x : ℚ) (fill : RGB)
    (bottom : ℚ) (d : Date3) :
    ∀ (events : List (List Char)) (y : ℚ),
      drawEvents width maxW x fill bottom d events y =
        ((keptEvents width maxW bottom events y).flatMap
          (fun p => eventLineCmds x fill (wrap_text width maxW p.2) p.1)) ++
        (if ∃ p ∈ keptEvents width maxW bottom events y,
            p.1 + 12 * ((wrap_text width maxW p.2).length : ℚ) > bottom
         then [.warnOverflow d] else []) := by
  intro events
  induction events with
  | nil => intro y; simp [drawEvents, keptEvents]
  | cons e es ih =>
    intro y
    simp only [drawEvents, keptEvents]
    by_cases h : y + 12 * ((wrap_text width maxW e).length : ℚ) > bottom
    · simp only [if_pos h]
      rw [if_pos (show ∃ p ∈ [((y : ℚ), e)],
          p.1 + 12 * ((wrap_text width maxW p.2).length : ℚ) > bottom from
        ⟨(y, e), by simp, h⟩)]
      simp
    · simp only [if_neg h]
      rw [ih]
      rw [List.flatMap_cons, List.append_assoc]
      congr 1
      congr 1
      refine if_congr ?_ rfl rfl
      constructor
      · rintro ⟨p, hp, hlt⟩
        exact ⟨p, List.mem_cons_of_mem _ hp, hlt⟩
      · rintro ⟨p, hp, hlt⟩
        rcases List.mem_cons.mp hp with rfl | hp'
        · exact absurd hlt h
        · exact ⟨p, hp', hlt⟩

/-- The canvas of the C2 counterexample: 100 × 2 pixel grid cells. -/
def tinyCellCfg : Cfg :=
  { baseConfig with IMG_WIDTH := 1810, MARGIN_LEFT := 555, MARGIN_RIGHT := 555, IMG_HEIGHT := 200, MARGIN_BOTTOM := 40 }

/-- C2 counterexample: with 2-pixel-tall cells, the event line of
January 10, 2025 (grid cell `(1, 4)`, left edge 900, top edge 152) is drawn
at y = 177 although its cell's bottom edge is
`MARGIN_TOP + 100 + 1 * cellH + cellH = 154`: the renderer draws every
wrapped line of an event before checking overflow, so an event text line IS
drawn below the geometric bottom boundary of its cell. -/
theorem C2_counterexample :
    (monthcalendar 2025 1 0).length = 5 ∧
    cellWidthQ tinyCellCfg = 100 ∧
    cellHeightQ tinyCellCfg (monthcalendar 2025 1 0).length = 2 ∧
    Cmd.text 965 177 "a".data tinyCellCfg.EVENT_COLOR ∈
      cellCmds tinyCellCfg (fun _ => 0) 2025 1 (monthcalendar 2025 1 0)
        [((2025, 1, 10), ["a".data])] (cellWidthQ tinyCellCfg)
        (cellHeightQ tinyCellCfg (monthcalendar 2025 1 0).length)
        (2025, 2, 1) 1 4 ∧
    (tinyCellCfg.MARGIN_TOP : ℚ) + 100 + 1 * 2 + 2 = 154 ∧
    (154 : ℚ) < 177 := by
  have hlen : (monthcalendar 2025 1 0).length = 5 := by decide
  have hcw : cellWidthQ tinyCellCfg = 100 := by
    norm_num [cellWidthQ, tinyCellCfg, baseConfig]
  have hch : cellHeightQ tinyCellCfg 5 = 2 := by
    norm_num [cellHeightQ, tinyCellCfg, baseConfig]
  refine ⟨hlen, hcw, by rw [hlen]; exact hch, ?_, ?_, by norm_num⟩
  · rw [hlen, hcw, hch]
    have hday : ((monthcalendar 2025 1 0).getD 1 []).getD 4 0 = 10 := by decide
    have hres : resolvedDate 2025 1 (monthcalendar 2025 1 0) 1 4 =
        some (2025, 1, 10) := by decide
    have hget : dictGet [((2025, 1, 10), ["a".data])] (2025, 1, 10) =
        some ["a".data] := by decide
    have hsplit : pySplit "a".data = ["a".data] := by decide
    have hstrip : pyStrip [' ', 'a'] = ['a'] := by decide
    have hwrap : wrap_text (fun _ => 0) ((100 : ℚ) - 20) "a".data =
        ["a".data] := by
      simp [wrap_text, hsplit, wrapStep, hstrip]
    have hne : ¬ (((2025, 1, 10) : Date3) = (2025, 2, 1)) := by decide
    simp only [cellCmds, hday, hres, hget, hwrap, hne]
    simp [drawEvents, eventLineCmds, hwrap, tinyCellCfg, baseConfig, intStr, hne]
    norm_num
  · norm_num [tinyCellCfg, baseConfig]

/-- C6 (confirmed): all geometry and color decisions of the render — cell
rectangles, text positions, fill colors, today-highlighting — are a pure
function of year, month, events mapping, start-of-week, config, font
metrics, and the "today" reference date (read from the wall clock in
`draw_calendar` and passed down into `draw_day_boxes_and_events`; an
explicit argument here): equal inputs give identical command lists, so the
output pixels are determined up to font rasterization. -/
theorem C6_draw_calendar_deterministic (cfg cfg' : Cfg)
    (tW tW' eW eW' : List Char → Int) (y y' : Int) (m m' : Nat)
    (ev ev' : List (Date3 × List (List Char))) (fw fw' : Nat)
    (td td' : Date3)
    (h1 : cfg = cfg') (h2 : tW = tW') (h3 : eW = eW') (h4 : y = y')
    (h5 : m = m') (h6 : ev = ev') (h7 : fw = fw') (h8 : td = td') :
    draw_calendar cfg tW eW y m ev fw td =
      draw_calendar cfg' tW' eW' y' m' ev' fw' td' := by
  subst h1 h2 h3 h4 h5 h6 h7 h8
  rfl

/-- C6 witness: two renders of March 2025 with the same inputs coincide. -/
theorem C6_draw_calendar_deterministic_witness :
    draw_calendar baseConfig (fun _ => 0) (fun _ => 0) 2025 3 [] 6
        (2025, 3, 10) =
      draw_calendar baseConfig (fun _ => 0) (fun _ => 0) 2025 3 [] 6
        (2025, 3, 10) :=
  C6_draw_calendar_deterministic baseConfig baseConfig _ _ _ _ 2025 2025 3 3
    [] [] 6 6 (2025, 3, 10) (2025, 3, 10) rfl rfl rfl rfl rfl rfl rfl rfl

/-- Day-box border/background commands. -/
def isRect : Cmd → Bool
  | .rect .. => true
  | _ => false

theorem countP_isRect_eventLineCmds (x : ℚ) (fill : RGB) :
    ∀ (ls : List (List Char)) (y : ℚ),
      (eventLineCmds x fill ls y).countP isRect = 0 := by
  intro ls
  induction ls with
  | nil => intro y; rfl
  | cons l ls ih => intro y; simp [eventLineCmds, List.countP_cons, isRect, ih]

theorem countP_isRect_drawEvents (width : List Char → Int) (maxW x : ℚ)
    (fill : RGB) (bottom : ℚ) (d : Date3) :
    ∀ (es : List (List Char)) (y : ℚ),
      (drawEvents width maxW x fill bottom d es y).countP isRect = 0 := by
  intro es
  induction es with
  | nil => intro y; rfl
  | cons e es ih =>
    intro y
    simp only [drawEvents, List.countP_append, countP_isRect_eventLineCmds]
    split <;> simp [List.countP_cons, isRect, ih]

/-- Every grid cell emits exactly one rectangle (highlighted or plain). -/
theorem countP_isRect_cellCmds (cfg : Cfg) (eW : List Char → Int) (y : Int)
    (m : Nat) (grid : List (List Nat))
    (events : List (Date3 × List (List Char))) (cellW cellH : ℚ)
    (today : Date3) (wi di : Nat) :
    (cellCmds cfg eW y m grid events cellW cellH today wi di).countP isRect = 1 := by
  simp only [cellCmds]
  cases hdt : resolvedDate y m grid wi di with
  | none =>
    simp [hdt, isRect, List.countP_append, List.countP_cons]
  | some dt =>
    simp only [hdt]
    cases hget : dictGet events dt with
    | none =>
      simp only [hget, List.countP_append]
      split <;> split <;>
        simp [isRect, List.countP_cons]
    | some evs =>
      simp only [hget, List.countP_append]
      split <;> split <;>
        simp [isRect, List.countP_cons, countP_isRect_drawEvents]

theorem countP_isRect_headerCmds (cfg : Cfg) (cellW : ℚ) (fw : Nat) :
    (headerCmds cfg cellW fw).countP isRect = 0 := by
  simp [headerCmds, List.countP_eq_zero, isRect]

theorem countP_flatMap {α β : Type} (l : List α) (f : α → List β)
    (p : β → Bool) :
    ((l.flatMap f).countP p) = (l.map (fun a => (f a).countP p)).sum := by
  induction l with
  | nil => rfl
  | cons a l ih => simp [List.flatMap_cons, List.countP_append, ih]

theorem sum_map_const_range (n c : Nat) :
    ((List.range n).map (fun _ => c)).sum = n * c := by
  induction n with
  | zero => simp
  | succ k ih => simp [List.range_succ, ih]; ring

/-- The render always emits one rectangle per grid cell: 7 per week row. -/
theorem draw_calendar_rect_count (cfg : Cfg) (tW eW : List Char → Int)
    (y : Int) (m : Nat) (ev : List (Date3 × List (List Char))) (fw : Nat)
    (today : Date3) :
    (draw_calendar cfg tW eW y m ev fw today).countP isRect =
      7 * (monthcalendar y m fw).length := by
  simp only [draw_calendar]
  rw [List.countP_cons, List.countP_cons, List.countP_append,
    countP_isRect_headerCmds, countP_flatMap]
  have hrow : ∀ wi ∈ List.range (monthcalendar y m fw).length,
      (((List.range ((monthcalendar y m fw).getD wi []).length).flatMap
        (fun di => cellCmds cfg eW y m (monthcalendar y m fw) ev (cellWidthQ cfg)
          (cellHeightQ cfg (monthcalendar y m fw).length) today wi di)).countP
            isRect) = 7 := by
    intro wi hwi
    rw [countP_flatMap]
    have h7 := monthcalendar_row_length y m fw wi (List.mem_range.mp hwi)
    have : ((List.range ((monthcalendar y m fw).getD wi []).length).map
        (fun di => ((cellCmds cfg eW y m (monthcalendar y m fw) ev
          (cellWidthQ cfg) (cellHeightQ cfg (monthcalendar y m fw).length)
          today wi di).countP isRect))) =
        (List.range ((monthcalendar y m fw).getD wi []).length).map
          (fun _ => 1) :=
      List.map_congr_left (fun di _ => countP_isRect_cellCmds cfg eW y m
        (monthcalendar y m fw) ev (cellWidthQ cfg)
        (cellHeightQ cfg (monthcalendar y m fw).length) today wi di)
    rw [this, sum_map_const_range, h7]
  rw [List.map_congr_left hrow, sum_map_const_range]
  simp [isRect]
  ring

/-- C7 (amended): `draw_calendar` performs NO layout-feasibility check: it is
a total function that, for every configuration — including ones whose margins
leave a negative drawable area — begins with the background fill and draws
one rectangle for each of the `7 × rows` grid cells. No `LayoutInfeasible`
error exists anywhere in the code; an infeasible layout silently produces a
malformed image. -/
theorem C7_no_layout_check (cfg : Cfg) (tW eW : List Char → Int) (y : Int)
    (m : Nat) (ev : List (Date3 × List (List Char))) (fw : Nat)
    (today : Date3) :
    (∃ rest, draw_calendar cfg tW eW y m ev fw today =
      Cmd.background cfg.IMG_WIDTH cfg.IMG_HEIGHT cfg.BACKGROUND_COLOR :: rest) ∧
    (draw_calendar cfg tW eW y m ev fw today).countP isRect =
      7 * (monthcalendar y m fw).length :=
  ⟨⟨_, rfl⟩, draw_calendar_rect_count cfg tW eW y m ev fw today⟩

/-- A configuration whose margins exceed the canvas width. -/
def overMarginCfg : Cfg := { baseConfig with IMG_WIDTH := 100 }

/-- C7 counterexample: with `IMG_WIDTH = 100` and 500-pixel side margins the
drawable area is negative (`cell_width = -900/7`), yet rendering January 2025
draws all 35 day-box rectangles instead of failing fast before drawing — no
`LayoutInfeasible` error is ever raised. -/
theorem C7_counterexample :
    cellWidthQ overMarginCfg < 0 ∧
    (draw_calendar overMarginCfg (fun _ => 0) (fun _ => 0) 2025 1 [] 0
      (2025, 1, 15)).countP isRect = 35 := by
  constructor
  · norm_num [cellWidthQ, overMarginCfg, baseConfig]
  · rw [draw_calendar_rect_count]
    decide

end CalendarWallpaper
